import Mathlib

/-! Verification development for web3creator/bytebase.

Shallow embedding of

* `backend/plugin/advisor/pg/advisor_insert_must_specify_column.go`
* `backend/plugin/parser/sql/mysql_test.go` (the validator and the resource
  extractor it exercises)
* `tests/fake/feishu.go`
* `server/task_check_executor_database_connect.go`

Go maps are association lists with first-match lookup, `interface{}` values are
sums over the dynamic types that matter, a Go `(value, error)` return is a pair
whose error component is an `Option`, and a nil slice is the empty list.
-/

set_option autoImplicit false

/-! ## Package `ast` (PostgreSQL syntax tree) -/

namespace ast

/-- Modelled from the spec: the `ast.Node` interface is declared outside the
files at hand. Every node carries its children in source order, its text and its
last line; `InsertStmt` is the one concrete node type the advisor inspects, and
`Other` stands for every other node type, tagged with its kind. -/
inductive Node where
  | InsertStmt (ColumnList : List String) (text : String) (lastLine : Int)
      (children : List Node)
  | Other (kind : String) (text : String) (lastLine : Int) (children : List Node)

/-- The `Text()` method of a node. -/
def Node.Text : Node → String
  | .InsertStmt _ t _ _ => t
  | .Other _ t _ _ => t

/-- The `LastLine()` method of a node. -/
def Node.LastLine : Node → Int
  | .InsertStmt _ _ l _ => l
  | .Other _ _ l _ => l

/-- The children of a node, in source order. -/
def Node.children : Node → List Node
  | .InsertStmt _ _ _ cs => cs
  | .Other _ _ _ cs => cs

end ast

/-! ## Package `advisor` -/

namespace advisor

/-- The `advisor.Status` values used by the advisor. -/
inductive Status where
  | Success
  | Warn
  | Error
  deriving DecidableEq, Repr

/-- The `advisor.Code` values used by the advisor. -/
inductive Code where
  | Ok
  | InsertNotSpecifyColumn
  deriving DecidableEq, Repr

/-- The `advisor.Advice` struct; `Line` has Go's zero value when not set. -/
structure Advice where
  Status : advisor.Status
  Code : advisor.Code
  Title : String
  Content : String
  Line : Int := 0
  deriving DecidableEq, Repr

/-- The `advisor.SQLReviewRule` fields read by `Check`; both are string types
in Go. `RuleType` is the Go field `Type`, a reserved word here. -/
structure SQLReviewRule where
  RuleType : String
  Level : String
  deriving DecidableEq, Repr

/-- The dynamic value held by `ctx.AST` (an `interface{}`): either a
`[]ast.Node`, or a value of some other dynamic type (nil included). -/
inductive ASTValue where
  | nodeList (stmts : List ast.Node)
  | other (typeName : String)

/-- The fields of `advisor.Context` read by `Check`. -/
structure Context where
  AST : ASTValue
  Rule : SQLReviewRule

/-- The two helpers of package `advisor` that `Check` calls and whose bodies
are outside the files at hand; they are parameters of the embedding. -/
structure Env where
  NewStatusBySQLReviewRuleLevel : String → Except String Status
  NormalizeStatement : String → String

/-- Modelled from the spec: `NewStatusBySQLReviewRuleLevel` and
`NormalizeStatement` are declared outside the files at hand. The severity
levels are Disabled, Warning and Error; a violation's status is derived from
Warning or Error, and Disabled has no status. Normalisation is taken as the
identity. Used for concrete evaluation only. -/
def specEnv : Env where
  NewStatusBySQLReviewRuleLevel := fun level =>
    if level = "ERROR" then .ok .Error
    else if level = "WARNING" then .ok .Warn
    else .error ("unexpected rule level type: " ++ level)
  NormalizeStatement := fun s => s

end advisor

/-! ## Package `pg`: the insert-must-specify-column advisor -/

namespace pg

open advisor

/-- The `insertMustSpecifyColumnChecker` struct. -/
structure insertMustSpecifyColumnChecker where
  adviceList : List Advice
  level : Status
  title : String
  text : String
  deriving DecidableEq, Repr

/-- The method `insertMustSpecifyColumnChecker.Visit`: the checker after the
call (the returned visitor is the checker itself, never nil). -/
def insertMustSpecifyColumnChecker.Visit (checker : insertMustSpecifyColumnChecker)
    (n : ast.Node) : insertMustSpecifyColumnChecker :=
  match n with
  | .InsertStmt ColumnList _ lastLine _ =>
    if ColumnList.length = 0 then
      { checker with
        adviceList := checker.adviceList ++ [{
          Status := checker.level
          Code := .InsertNotSpecifyColumn
          Title := checker.title
          Content := "The INSERT statement must specify columns but \"" ++ checker.text
            ++ "\" does not"
          Line := lastLine }] }
    else checker
  | .Other _ _ _ _ => checker

mutual
/-- Modelled from the spec: `ast.Walk` is declared outside the files at hand.
The visitor is invoked on each node in pre-order; the checker's `Visit` always
returns a continuation visitor, so the traversal descends into every child. -/
def Walk (checker : insertMustSpecifyColumnChecker) :
    ast.Node → insertMustSpecifyColumnChecker
  | .InsertStmt cl t l cs => WalkList (checker.Visit (.InsertStmt cl t l cs)) cs
  | .Other k t l cs => WalkList (checker.Visit (.Other k t l cs)) cs
/-- The traversal of a sequence of children, left to right. -/
def WalkList (checker : insertMustSpecifyColumnChecker) :
    List ast.Node → insertMustSpecifyColumnChecker
  | [] => checker
  | n :: ns => WalkList (Walk checker n) ns
end

/-- The `for _, stmt := range stmtList` loop of `Check`. -/
def walkStmts (env : Env) (checker : insertMustSpecifyColumnChecker) :
    List ast.Node → insertMustSpecifyColumnChecker
  | [] => checker
  | stmt :: rest =>
    walkStmts env (Walk { checker with text := env.NormalizeStatement stmt.Text } stmt) rest

/-- The synthetic advice appended when nothing was found. -/
def okAdvice : Advice :=
  { Status := .Success, Code := .Ok, Title := "OK", Content := "" }

/-- The checker that `Check` builds before the loop: no advice, the level and
the title of the rule, and the zero value of `text`. -/
def freshChecker (level : Status) (ctx : Context) : insertMustSpecifyColumnChecker :=
  { adviceList := [], level := level, title := ctx.Rule.RuleType, text := "" }

/-- The method `InsertMustSpecifyColumnAdvisor.Check`: the returned advice list
(nil is the empty list) and the returned error. -/
def Check (env : Env) (ctx : Context) : List Advice × Option String :=
  match ctx.AST with
  | .other _ => ([], some "failed to convert to Node")
  | .nodeList stmtList =>
    match env.NewStatusBySQLReviewRuleLevel ctx.Rule.Level with
    | .error err => ([], some err)
    | .ok level =>
      let checker := walkStmts env (freshChecker level ctx) stmtList
      if checker.adviceList.length = 0 then
        (checker.adviceList ++ [okAdvice], none)
      else (checker.adviceList, none)

/-! ### `Check` on a memory of checker objects

`Check` allocates its checker with `&insertMustSpecifyColumnChecker{...}` and
`Visit` writes through that pointer. Below, the checker objects that exist are
kept in a memory indexed by address, so that an invocation could in principle
read or write an object left by another one. -/

/-- The checker objects in memory; a `*insertMustSpecifyColumnChecker` is the
index of its object. -/
abbrev CheckerHeap := List insertMustSpecifyColumnChecker

/-- A write through a checker pointer: the object at `p` is replaced by its
image under `f`, every other object is left as it is. -/
def CheckerHeap.update : CheckerHeap → Nat → (insertMustSpecifyColumnChecker →
    insertMustSpecifyColumnChecker) → CheckerHeap
  | [], _, _ => []
  | c :: cs, 0, f => f c :: cs
  | c :: cs, p + 1, f => c :: CheckerHeap.update cs p f

/-- The call `checker.Visit(in)` on the pointer `p`. -/
def VisitAt (heap : CheckerHeap) (p : Nat) (n : ast.Node) : CheckerHeap :=
  heap.update p (fun checker => checker.Visit n)

mutual
/-- The call `ast.Walk(checker, node)` on the pointer `p`, following `Walk`. -/
def WalkAt (heap : CheckerHeap) (p : Nat) : ast.Node → CheckerHeap
  | .InsertStmt cl t l cs => WalkListAt (VisitAt heap p (.InsertStmt cl t l cs)) p cs
  | .Other k t l cs => WalkListAt (VisitAt heap p (.Other k t l cs)) p cs
/-- The traversal of a sequence of children on the pointer `p`. -/
def WalkListAt (heap : CheckerHeap) (p : Nat) : List ast.Node → CheckerHeap
  | [] => heap
  | n :: ns => WalkListAt (WalkAt heap p n) p ns
end

/-- The `for _, stmt := range stmtList` loop of `Check` on the pointer `p`. -/
def walkStmtsAt (env : Env) (heap : CheckerHeap) (p : Nat) : List ast.Node → CheckerHeap
  | [] => heap
  | stmt :: rest =>
    walkStmtsAt env
      (WalkAt (heap.update p
        (fun checker => { checker with text := env.NormalizeStatement stmt.Text })) p stmt)
      p rest

/-- The method `InsertMustSpecifyColumnAdvisor.Check` run on a memory that
already holds `heap`: the returned advice list and error, and the memory after
the call. The checker is allocated at the first free address. -/
def CheckOnHeap (env : Env) (heap : CheckerHeap) (ctx : Context) :
    (List Advice × Option String) × CheckerHeap :=
  match ctx.AST with
  | .other _ => (([], some "failed to convert to Node"), heap)
  | .nodeList stmtList =>
    match env.NewStatusBySQLReviewRuleLevel ctx.Rule.Level with
    | .error err => (([], some err), heap)
    | .ok level =>
      let checker := heap.length
      let heap := heap ++ [freshChecker level ctx]
      let heap := walkStmtsAt env heap checker stmtList
      match heap[checker]? with
      | none => (([], some "invalid memory address or nil pointer dereference"), heap)
      | some object =>
        if object.adviceList.length = 0 then
          let heap := heap.update checker
            (fun c => { c with adviceList := c.adviceList ++ [okAdvice] })
          (((heap[checker]?).getD object |>.adviceList, none), heap)
        else ((object.adviceList, none), heap)

/-- A sequence of `Check` invocations run one after the other on the same
advisor value and the same memory: the results in order, and the memory at the
end. The `InsertMustSpecifyColumnAdvisor` struct has no field, so the memory of
checker objects is all the state an invocation leaves behind. -/
def runChecksOnHeap (env : Env) (heap : CheckerHeap) :
    List Context → List (List Advice × Option String) × CheckerHeap
  | [] => ([], heap)
  | ctx :: rest =>
    let r := CheckOnHeap env heap ctx
    let rs := runChecksOnHeap env r.2 rest
    (r.1 :: rs.1, rs.2)

end pg

/-! ## Go maps with string keys -/

namespace gomap

/-- A Go `map[string]V`, as the list of its entries; a key is looked up by its
first entry. -/
abbrev Map (V : Type) := List (String × V)

/-- The lookup `v, ok := m[k]`. -/
def mapGet {V : Type} : Map V → String → Option V
  | [], _ => none
  | (k', v) :: rest, k => if k' = k then some v else mapGet rest k

/-- The assignment `m[k] = v`: the entry of `k` is replaced, or a new entry is
added. -/
def mapSet {V : Type} : Map V → String → V → Map V
  | [], k, v => [(k, v)]
  | (k', v') :: rest, k, v =>
    if k' = k then (k, v) :: rest else (k', v') :: mapSet rest k v

/-- The keys of a map, one per entry. -/
def mapKeys {V : Type} (m : Map V) : List String := m.map Prod.fst

end gomap

/-! ## Package `feishu` (declarations used by the fake server) -/

namespace feishu

/-- The `feishu.ApprovalStatus` type, a string type in Go: the three constants
the fake server uses, and `Other` for any further value of the type. -/
inductive ApprovalStatus where
  | ApprovalStatusPending
  | ApprovalStatusApproved
  | ApprovalStatusCanceled
  | Other (raw : String)
  deriving DecidableEq, Repr

/-- Rendering of a status inside an error message. The string values of the
constants are declared outside the files at hand and matter only for the text
of that message. -/
def ApprovalStatus.raw : ApprovalStatus → String
  | .ApprovalStatusPending => "PENDING"
  | .ApprovalStatusApproved => "APPROVED"
  | .ApprovalStatusCanceled => "CANCELED"
  | .Other raw => raw

end feishu

/-! ## Package `fake`: the fake Feishu server -/

namespace fake

open feishu gomap

/-- The `approval` struct. -/
structure approval where
  approvalCode : String
  instanceCode : String
  status : ApprovalStatus
  deriving DecidableEq, Repr

/-- The data fields of the `Feishu` struct. The map of `*approval` is a map of
values: every pointer is created by `createApprovalInstance` and stored under
one key, so no two entries share a pointee. -/
structure Feishu where
  approvalDefinition : Map Bool
  approvalInstance : Map approval
  users : Map String
  deriving DecidableEq, Repr

/-- The state built by `NewFeishu`. -/
def NewFeishu : Feishu :=
  { approvalDefinition := [], approvalInstance := [], users := [] }

/-- What a handler obtains from `io.ReadAll` followed by `json.Unmarshal`. -/
inductive Body (α : Type) where
  | readError (err : String)
  | unmarshalError (err : String)
  | ok (value : α)
  deriving DecidableEq, Repr

/-- The JSON replies of the handlers. -/
inductive Reply where
  | ApprovalDefinitionResponse (Code : Int) (ApprovalCode : String) (Msg : String)
  | ExternalApprovalResponse (Code : Int) (Msg : String) (InstanceCode : String)
  | GetExternalApprovalResponse (Code : Int) (Msg : String) (Status : ApprovalStatus)
  | CancelExternalApprovalResponse (Code : Int) (Msg : String)
  | EmailsFindResponse (Code : Int) (Msg : String) (UserList : List (String × String))
  deriving DecidableEq, Repr

/-- The loop of `RegisterEmails` from the `i`-th email on; `uuid i` is the value
that `uuid.NewString()` returns for the `i`-th email. -/
def RegisterEmailsLoop (uuid : Nat → String) (users : Map String) (i : Nat) :
    List String → Map String × Option String
  | [] => (users, none)
  | email :: rest =>
    match mapGet users email with
    | some _ => (users, some ("register email " ++ email ++ " twice"))
    | none => RegisterEmailsLoop uuid (mapSet users email (uuid i)) (i + 1) rest

/-- The method `Feishu.RegisterEmails`: the state after the call and the
returned error. -/
def Feishu.RegisterEmails (f : Feishu) (uuid : Nat → String) (emails : List String) :
    Feishu × Option String :=
  let r := RegisterEmailsLoop uuid f.users 0 emails
  ({ f with users := r.1 }, r.2)

/-- The loop of `PendingApprovalCount` over the entries of the table. -/
def pendingCountLoop (count : Nat) : Map approval → Nat
  | [] => count
  | (_, a) :: rest =>
    if a.status = .ApprovalStatusPending then pendingCountLoop (count + 1) rest
    else pendingCountLoop count rest

/-- The method `Feishu.PendingApprovalCount`: the returned count and the state
after the call. -/
def Feishu.PendingApprovalCount (f : Feishu) : Nat × Feishu :=
  (pendingCountLoop 0 f.approvalInstance, f)

/-- The loop of `ApprovePendingApprovals` over the entries of the table. -/
def approveLoop : Map approval → Map approval
  | [] => []
  | (k, a) :: rest =>
    if a.status = .ApprovalStatusPending then
      (k, { a with status := .ApprovalStatusApproved }) :: approveLoop rest
    else (k, a) :: approveLoop rest

/-- The method `Feishu.ApprovePendingApprovals`. -/
def Feishu.ApprovePendingApprovals (f : Feishu) : Feishu :=
  { f with approvalInstance := approveLoop f.approvalInstance }

/-- The handler `createApprovalDefinition`; `id` is the value returned by
`uuid.NewString()`. -/
def Feishu.createApprovalDefinition (f : Feishu) (id : String) :
    Feishu × Except String Reply :=
  ({ f with approvalDefinition := mapSet f.approvalDefinition id true },
   .ok (.ApprovalDefinitionResponse 0 id "success"))

/-- The handler `createApprovalInstance`; the body carries the request's
`ApprovalCode` and `id` is the value returned by `uuid.NewString()`. -/
def Feishu.createApprovalInstance (f : Feishu) (body : Body String) (id : String) :
    Feishu × Except String Reply :=
  match body with
  | .readError err => (f, .error ("failed to read create approval instance body: " ++ err))
  | .unmarshalError err =>
    (f, .error ("failed to unmarshal create approval instance body: " ++ err))
  | .ok ApprovalCode =>
    if (mapGet f.approvalDefinition ApprovalCode).getD false = false then
      (f, .error ("not found approval code " ++ ApprovalCode))
    else
      let created : approval :=
        ⟨ApprovalCode, id, .ApprovalStatusPending⟩
      ({ f with approvalInstance := mapSet f.approvalInstance id created },
       .ok (.ExternalApprovalResponse 0 "success" id))

/-- The handler `getApprovalInstanceStatus`; `id` is the path parameter. -/
def Feishu.getApprovalInstanceStatus (f : Feishu) (id : String) :
    Feishu × Except String Reply :=
  match mapGet f.approvalInstance id with
  | none => (f, .error ("not found approval instance " ++ id))
  | some a => (f, .ok (.GetExternalApprovalResponse 0 "success" a.status))

/-- The handler `cancelApprovalInstance`; the body carries the request's
`InstanceCode`. -/
def Feishu.cancelApprovalInstance (f : Feishu) (body : Body String) :
    Feishu × Except String Reply :=
  match body with
  | .readError err => (f, .error ("failed to read cancel approval instance body: " ++ err))
  | .unmarshalError err =>
    (f, .error ("failed to unmarshal cancel approval instance body: " ++ err))
  | .ok InstanceCode =>
    match mapGet f.approvalInstance InstanceCode with
    | none => (f, .error ("not found approval " ++ InstanceCode))
    | some a =>
      if a.status ≠ .ApprovalStatusPending then
        (f, .error ("expect to cancel a \"pending\" approval, but get status \""
          ++ a.status.raw ++ "\""))
      else
        let canceled : approval := ⟨a.approvalCode, a.instanceCode, .ApprovalStatusCanceled⟩
        ({ f with approvalInstance := mapSet f.approvalInstance InstanceCode canceled },
         .ok (.CancelExternalApprovalResponse 0 "success"))

/-- The loop of `getIDByEmail` building the user list. -/
def getIDByEmailLoop (users : Map String) (acc : List (String × String)) :
    List String → List (String × String)
  | [] => acc
  | email :: rest =>
    match mapGet users email with
    | none => getIDByEmailLoop users (acc ++ [("", email)]) rest
    | some id => getIDByEmailLoop users (acc ++ [(id, email)]) rest

/-- The handler `getIDByEmail`; the body carries the request's `Emails`. -/
def Feishu.getIDByEmail (f : Feishu) (body : Body (List String)) :
    Feishu × Except String Reply :=
  match body with
  | .readError err => (f, .error ("failed to read get id by email body: " ++ err))
  | .unmarshalError err => (f, .error ("failed to unmarshal get id by email body: " ++ err))
  | .ok Emails => (f, .ok (.EmailsFindResponse 0 "success" (getIDByEmailLoop f.users [] Emails)))

/-- One call on the fake server, with its arguments and the values drawn from
`uuid.NewString()` during the call. -/
inductive Op where
  | createApprovalDefinition (id : String)
  | createApprovalInstance (body : Body String) (id : String)
  | getApprovalInstanceStatus (id : String)
  | cancelApprovalInstance (body : Body String)
  | ApprovePendingApprovals
  | RegisterEmails (uuid : Nat → String) (emails : List String)
  | PendingApprovalCount
  | getIDByEmail (body : Body (List String))

/-- The state after one call. -/
def Feishu.step (f : Feishu) : Op → Feishu
  | .createApprovalDefinition id => (f.createApprovalDefinition id).1
  | .createApprovalInstance body id => (f.createApprovalInstance body id).1
  | .getApprovalInstanceStatus id => (f.getApprovalInstanceStatus id).1
  | .cancelApprovalInstance body => (f.cancelApprovalInstance body).1
  | .ApprovePendingApprovals => f.ApprovePendingApprovals
  | .RegisterEmails uuid emails => (f.RegisterEmails uuid emails).1
  | .PendingApprovalCount => f.PendingApprovalCount.2
  | .getIDByEmail body => (f.getIDByEmail body).1

/-- What `uuid.NewString()` guarantees for a call: an instance id drawn during
the call is not the id of an existing approval instance. -/
def Op.freshIn (f : Feishu) : Op → Prop
  | .createApprovalInstance _ id => id ∉ mapKeys f.approvalInstance
  | _ => True

end fake

/-! ## Package `server`: the database-connect task check -/

namespace server

/-- The result of running a Go function: it returns, or it panics. -/
inductive Outcome (α : Type) where
  | returned (value : α)
  | panicked (msg : String)
  deriving DecidableEq, Repr

/-- The `api.TaskCheckStatus` values used by `Run`. -/
inductive TaskCheckStatus where
  | TaskCheckStatusSuccess
  | TaskCheckStatusError
  deriving DecidableEq, Repr

/-- The `common.Code` values used by `Run`. -/
inductive Code where
  | Ok
  | Internal
  | DbConnectionFailure
  deriving DecidableEq, Repr

/-- The `api.TaskCheckResult` struct. -/
structure TaskCheckResult where
  Status : TaskCheckStatus
  Code : server.Code
  Title : String
  Content : String
  deriving DecidableEq, Repr

/-- The field of `api.Task` read by `Run`. -/
structure Task where
  DatabaseID : Option Int
  deriving DecidableEq, Repr

/-- The fields of `api.Database` read by `Run`. -/
structure Database where
  Name : String
  Instance : String
  deriving DecidableEq, Repr

/-- A Go `error` value: nil, or an error with its message. -/
abbrev GoError := Option String

/-- The collaborators of `Run` whose bodies are outside the files at hand: each
is given by what it returns. A pointer result is `none` when nil. -/
structure Collaborators where
  FindTask : Int → Option Task × GoError
  composeDatabaseByFind : Option Int → Option Database × GoError
  getDatabaseDriver : String → String → GoError
  Errorf : Code → String → String
  quote : String → String

/-- The call `err.Error()`: a nil interface value has no method to call. -/
def GoError.Error : GoError → Outcome String
  | some msg => .returned msg
  | none => .panicked "runtime error: invalid memory address or nil pointer dereference"

/-- The method `TaskCheckDatabaseConnectExecutor.Run`, given the `TaskID` of the
task check run: the returned results and error, or a panic. -/
def Run (env : Collaborators) (TaskID : Int) :
    Outcome (List TaskCheckResult × GoError) :=
  match env.FindTask TaskID with
  | (_, some err) => .returned ([], some (env.Errorf .Internal err))
  | (none, none) =>
    match GoError.Error none with
    | .panicked msg => .panicked msg
    | .returned content =>
      .returned ([{ Status := .TaskCheckStatusError, Code := .Internal,
                    Title := "Failed to find task " ++ toString TaskID,
                    Content := content }], none)
  | (some task, none) =>
    match env.composeDatabaseByFind task.DatabaseID with
    | (_, some err) => .returned ([], some (env.Errorf .Internal err))
    | (none, none) =>
      .panicked "runtime error: invalid memory address or nil pointer dereference"
    | (some database, none) =>
      match env.getDatabaseDriver database.Instance database.Name with
      | some err =>
        .returned ([{ Status := .TaskCheckStatusError, Code := .DbConnectionFailure,
                      Title := "Failed to connect " ++ env.quote database.Name,
                      Content := err }], none)
      | none =>
        .returned ([{ Status := .TaskCheckStatusSuccess, Code := .Ok, Title := "OK",
                      Content := "Successfully connected " ++ env.quote database.Name }],
                   none)

/-- The result that `Run` is meant to return when the task is not found. -/
def isTaskNotFoundResult (TaskID : Int) (r : List TaskCheckResult × GoError) : Prop :=
  r.2 = none ∧ ∃ content, r.1 = [TaskCheckResult.mk .TaskCheckStatusError .Internal
    ("Failed to find task " ++ toString TaskID) content]

end server

/-! ## Package `parser`: the MySQL validator and resource extractor

`mysql_test.go` exercises `MySQLValidateForEditor` and
`extractMySQLResourceList`, whose bodies are outside the files at hand. -/

namespace parser

/-- Modelled from the spec: the syntax nodes below a statement root are declared
outside the files at hand. A node is a table reference, with its optional
database qualifier, its table name and its optional alias, or any other
construct with its kind and its children in source order. -/
inductive SyntaxNode where
  | tableRef (database : Option String) (table : String) (tableAlias : Option String)
  | node (kind : String) (children : List SyntaxNode)

/-- Modelled from the spec: the statement trees returned by `ParseMySQL` are
declared outside the files at hand. A statement is classified by its root kind:
a pure read statement, a data-definition statement, a data-modification
statement, an explain-style wrapper around another statement, or a statement
of a kind the spec does not classify. -/
inductive Statement where
  | read (body : SyntaxNode)
  | dataDefinition (kind : String) (body : SyntaxNode)
  | dataModification (kind : String) (body : SyntaxNode)
  | explain (wrapped : Statement)
  | unclassified (kind : String) (body : SyntaxNode)

/-- The `SchemaResource` struct compared by the tests. -/
structure SchemaResource where
  Database : String
  Table : String
  deriving DecidableEq, Repr

/-- Modelled from the spec: the classification of `MySQLValidateForEditor`,
whose body is outside the files at hand. The kind that makes a statement
disallowed in a restricted context, if any: a read statement is permitted, a
data-definition or data-modification statement is rejected, and a wrapper is
classified by the statement it wraps. `allowUnclassified` decides the kinds the
spec leaves open. -/
def Statement.disallowedKind (allowUnclassified : String → Bool) : Statement → Option String
  | .read _ => none
  | .dataDefinition kind _ => some kind
  | .dataModification kind _ => some kind
  | .explain wrapped => disallowedKind allowUnclassified wrapped
  | .unclassified kind _ => if allowUnclassified kind then none else some kind

/-- Modelled from the spec: `MySQLValidateForEditor`, whose body is outside the
files at hand. The returned error is nil when every statement is permitted;
the first disallowed statement produces the error, which names its kind. -/
def MySQLValidateForEditor (allowUnclassified : String → Bool) :
    List Statement → Option String
  | [] => none
  | stmt :: rest =>
    match stmt.disallowedKind allowUnclassified with
    | some kind => some ("disallowed statement kind: " ++ kind)
    | none => MySQLValidateForEditor allowUnclassified rest

/-- Read statements and explain-style wrappers directly around one. -/
def Statement.isReadOrExplainRead : Statement → Bool
  | .read _ => true
  | .explain (.read _) => true
  | _ => false

/-- Data-definition and data-modification statements and explain-style
wrappers directly around one. -/
def Statement.isWriteOrExplainWrite : Statement → Bool
  | .dataDefinition _ _ => true
  | .dataModification _ _ => true
  | .explain (.dataDefinition _ _) => true
  | .explain (.dataModification _ _) => true
  | _ => false

/-- A table reference as written: optional database qualifier and table name. -/
abbrev TableRef := Option String × String

mutual
/-- Modelled from the spec: the walk of the resource extractor, whose body is
outside the files at hand. The table references below a node, in pre-order,
which is the order of appearance in the source text; an alias never becomes
part of a reference. -/
def SyntaxNode.tableRefs : SyntaxNode → List TableRef
  | .tableRef database table _ => [(database, table)]
  | .node _ children => SyntaxNode.tableRefsList children
/-- The table references below a sequence of nodes, left to right. -/
def SyntaxNode.tableRefsList : List SyntaxNode → List TableRef
  | [] => []
  | n :: ns => SyntaxNode.tableRefs n ++ SyntaxNode.tableRefsList ns
end

/-- The table references of a statement; a wrapper contributes those of the
statement it wraps. -/
def Statement.tableRefs : Statement → List TableRef
  | .read body => body.tableRefs
  | .dataDefinition _ body => body.tableRefs
  | .dataModification _ body => body.tableRefs
  | .explain wrapped => Statement.tableRefs wrapped
  | .unclassified _ body => body.tableRefs

/-- The table references of a statement sequence, in statement order. -/
def allTableRefs : List Statement → List TableRef
  | [] => []
  | stmt :: rest => stmt.tableRefs ++ allTableRefs rest

/-- Modelled from the spec: resolution of a reference by the resource
extractor. An explicit `database.table` uses the given database, an unqualified
reference falls back to the default database. -/
def resolve (defaultDatabase : String) (ref : TableRef) : SchemaResource :=
  match ref.1 with
  | some database => { Database := database, Table := ref.2 }
  | none => { Database := defaultDatabase, Table := ref.2 }

/-- Modelled from the spec: deduplication by (database, table) that keeps the
order of first appearance. -/
def collect (defaultDatabase : String) (acc : List SchemaResource) :
    List TableRef → List SchemaResource
  | [] => acc
  | ref :: rest =>
    if resolve defaultDatabase ref ∈ acc then collect defaultDatabase acc rest
    else collect defaultDatabase (acc ++ [resolve defaultDatabase ref]) rest

/-- Modelled from the spec: `extractMySQLResourceList`, whose body is outside
the files at hand. `ParseMySQL` is the vendored parser, a parameter; the
extractor fails only if the text cannot be parsed. -/
def extractMySQLResourceList (ParseMySQL : String → Except String (List Statement))
    (defaultDatabase : String) (text : String) : Except String (List SchemaResource) :=
  match ParseMySQL text with
  | .error err => .error err
  | .ok stmts => .ok (collect defaultDatabase [] (allTableRefs stmts))

/-- The tree of `SELECT * FROM t1 WHERE c1 = 1; SELECT * FROM t2;`. -/
def treeSelectSelect : List Statement :=
  [.read (.node "select" [.node "fields" [.node "star" []],
      .node "from" [.tableRef none "t1" none],
      .node "where" [.node "eq" [.node "column c1" [], .node "literal 1" []]]]),
   .read (.node "select" [.node "fields" [.node "star" []],
      .node "from" [.tableRef none "t2" none]])]

/-- The tree of `CREATE TABLE t1 (c1 INT);`. -/
def treeCreateTable : List Statement :=
  [.dataDefinition "CREATE TABLE"
    (.node "createTable" [.tableRef none "t1" none, .node "column c1 INT" []])]

/-- The tree of `UPDATE t1 SET c1 = 1;`. -/
def treeUpdate : List Statement :=
  [.dataModification "UPDATE"
    (.node "update" [.tableRef none "t1" none,
      .node "set" [.node "column c1" [], .node "literal 1" []]])]

/-- The tree of `EXPLAIN SELECT * FROM t1;`. -/
def treeExplainSelect : List Statement :=
  [.explain (.read (.node "select" [.node "fields" [.node "star" []],
      .node "from" [.tableRef none "t1" none]]))]

/-- The tree of `EXPLAIN FORMAT=JSON DELETE FROM t1;`. -/
def treeExplainDelete : List Statement :=
  [.explain (.dataModification "DELETE"
    (.node "delete" [.node "from" [.tableRef none "t1" none]]))]

/-- The tree of `SELECT * FROM db1.t1 JOIN db2.t2 ON t1.c1 = t2.c1;`. -/
def treeJoin : List Statement :=
  [.read (.node "select" [.node "fields" [.node "star" []],
      .node "from" [.node "join" [.tableRef (some "db1") "t1" none,
        .tableRef (some "db2") "t2" none,
        .node "on" [.node "eq" [.node "column t1.c1" [], .node "column t2.c1" []]]]]])]

/-- The tree of `SELECT a > (select max(a) from t1) FROM t2;`. -/
def treeSubquery : List Statement :=
  [.read (.node "select"
      [.node "fields" [.node "gt" [.node "column a" [],
        .node "subquery" [.node "select" [.node "fields" [.node "max" [.node "column a" []]],
          .node "from" [.tableRef none "t1" none]]]]],
       .node "from" [.tableRef none "t2" none]])]

/-- A parser that knows the three statements of `TestExtractMySQLResourceList`
and rejects every other text; for concrete evaluation only. -/
def testParse (text : String) : Except String (List Statement) :=
  if text = "SELECT * FROM t1 WHERE c1 = 1; SELECT * FROM t2;" then .ok treeSelectSelect
  else if text = "SELECT * FROM db1.t1 JOIN db2.t2 ON t1.c1 = t2.c1;" then .ok treeJoin
  else if text = "SELECT a > (select max(a) from t1) FROM t2;" then .ok treeSubquery
  else .error "syntax error"

end parser

/-! ## Sample inputs and predicates used in the statements -/

namespace pg

open advisor

/-- A statement list without finding: an INSERT with a column list and another
statement with a nested INSERT that has one too. -/
def cleanContext : Context :=
  { AST := .nodeList
      [.InsertStmt ["a", "b"] "INSERT INTO t(a, b) VALUES (1, 2)" 1 [],
       .Other "CreateTableStmt" "CREATE TABLE t(a int)" 3
         [.Other "ColumnDef" "a int" 3 []]]
    Rule := { RuleType := "statement.insert.must-specify-column", Level := "WARNING" } }

/-- A statement list with two findings and one clean statement between them. -/
def dirtyContext : Context :=
  { AST := .nodeList
      [.InsertStmt [] "INSERT INTO t VALUES (1, 2)" 2 [],
       .InsertStmt ["a"] "INSERT INTO t(a) VALUES (1)" 3 [],
       .Other "ExplainStmt" "EXPLAIN INSERT INTO u VALUES (1)" 5
         [.InsertStmt [] "INSERT INTO u VALUES (1)" 5 []]]
    Rule := { RuleType := "statement.insert.must-specify-column", Level := "ERROR" } }

/-- An INSERT statement node whose explicit column list is empty. -/
def isInsertWithoutColumns : ast.Node → Bool
  | .InsertStmt [] _ _ _ => true
  | _ => false

/-- The finding that the rule reports for a node, given the checker's
configuration. -/
def findingFor (checker : insertMustSpecifyColumnChecker) (n : ast.Node) : Advice :=
  { Status := checker.level
    Code := .InsertNotSpecifyColumn
    Title := checker.title
    Content := "The INSERT statement must specify columns but \"" ++ checker.text
      ++ "\" does not"
    Line := n.LastLine }

end pg

namespace fake

open feishu gomap

/-- The status change made by `ApprovePendingApprovals` on one approval. -/
def approved (a : approval) : approval :=
  if a.status = .ApprovalStatusPending then { a with status := .ApprovalStatusApproved } else a

/-- A state with one definition, one approval of each status and one user. -/
def sampleFeishu : Feishu :=
  { approvalDefinition := [("def-1", true)]
    approvalInstance :=
      [("inst-1", ⟨"def-1", "inst-1", .ApprovalStatusApproved⟩),
       ("inst-2", ⟨"def-1", "inst-2", .ApprovalStatusPending⟩),
       ("inst-3", ⟨"def-1", "inst-3", .ApprovalStatusCanceled⟩),
       ("inst-4", ⟨"def-1", "inst-4", .ApprovalStatusPending⟩)]
    users := [("dev@example.com", "user-0")] }

/-- A supply of user ids for `RegisterEmails`. -/
def sampleUUID (i : Nat) : String := "user-" ++ toString (i + 1)

end fake

namespace server

/-- Collaborators for which the task lookup finds nothing and reports no
error. -/
def taskMissing : Collaborators where
  FindTask := fun _ => (none, none)
  composeDatabaseByFind := fun _ => (some { Name := "db", Instance := "instance-1" }, none)
  getDatabaseDriver := fun _ _ => none
  Errorf := fun _ err => err
  quote := fun s => "\"" ++ s ++ "\""

end server

/-! ## Theorems: the insert-must-specify-column advisor -/

namespace pg

open advisor

/-- C1: when the AST is a statement list, the rule level converts to a status
and walking all statements produces no finding, `Check` returns a nil error and
exactly one advice, with status Success, code Ok, title "OK" and empty content;
the same holds for the empty statement list, and whenever `Check` returns a nil
error its advice list is not empty. -/
theorem Check_no_finding_returns_single_ok (env : Env) (ctx : Context)
    (stmts : List ast.Node) (level : Status)
    (hAST : ctx.AST = .nodeList stmts)
    (hLevel : env.NewStatusBySQLReviewRuleLevel ctx.Rule.Level = .ok level)
    (hNone : (walkStmts env (freshChecker level ctx) stmts).adviceList = []) :
    Check env ctx = ([okAdvice], none)
    ∧ Check env { AST := .nodeList [], Rule := ctx.Rule } = ([okAdvice], none)
    ∧ okAdvice = { Status := .Success, Code := .Ok, Title := "OK", Content := "" }
    ∧ ∀ ctx' : Context, (Check env ctx').2 = none → (Check env ctx').1 ≠ [] := by
  refine ⟨?_, ?_, rfl, ?_⟩
  · simp [Check, hAST, hLevel, hNone]
  · simp [Check, hLevel, walkStmts, freshChecker]
  · intro ctx' h
    unfold Check at h ⊢
    cases hA : ctx'.AST with
    | other t => simp [hA] at h
    | nodeList l =>
      cases hL : env.NewStatusBySQLReviewRuleLevel ctx'.Rule.Level with
      | error e => simp [hA, hL] at h
      | ok lv =>
        simp only [hA, hL]
        split
        · simp
        · rename_i hne
          intro hnil
          apply hne
          simp only at hnil
          rw [hnil]
          rfl

/-- The hypotheses of C1 hold at `cleanContext`, and `Check` returns the single
Ok advice there. -/
theorem Check_no_finding_returns_single_ok_witness :
    Check specEnv cleanContext = ([okAdvice], none)
    ∧ Check specEnv { AST := .nodeList [], Rule := cleanContext.Rule } = ([okAdvice], none)
    ∧ okAdvice = { Status := .Success, Code := .Ok, Title := "OK", Content := "" }
    ∧ ∀ ctx' : Context, (Check specEnv ctx').2 = none → (Check specEnv ctx').1 ≠ [] :=
  Check_no_finding_returns_single_ok specEnv cleanContext
    [.InsertStmt ["a", "b"] "INSERT INTO t(a, b) VALUES (1, 2)" 1 [],
     .Other "CreateTableStmt" "CREATE TABLE t(a int)" 3
       [.Other "ColumnDef" "a int" 3 []]]
    .Warn rfl rfl (by decide)

/-- C2: `Visit` appends exactly one advice when the node is an INSERT statement
whose explicit column list is empty, and leaves the advice list unchanged for
every other node; the appended advice has the node's last line, the checker's
level, code InsertNotSpecifyColumn and the checker's title, and the earlier
findings stay in order before it. The other fields of the checker are kept. -/
theorem Visit_appends_iff_insert_without_columns
    (checker : insertMustSpecifyColumnChecker) (n : ast.Node) :
    (checker.Visit n).adviceList =
      (if isInsertWithoutColumns n then checker.adviceList ++ [findingFor checker n]
       else checker.adviceList)
    ∧ ((checker.Visit n).adviceList.length = checker.adviceList.length + 1
        ↔ ∃ text lastLine children, n = .InsertStmt [] text lastLine children)
    ∧ (isInsertWithoutColumns n = true
        ↔ ∃ text lastLine children, n = .InsertStmt [] text lastLine children)
    ∧ (findingFor checker n).Line = n.LastLine
    ∧ (findingFor checker n).Status = checker.level
    ∧ (findingFor checker n).Code = .InsertNotSpecifyColumn
    ∧ (findingFor checker n).Title = checker.title
    ∧ (checker.Visit n).level = checker.level
    ∧ (checker.Visit n).title = checker.title
    ∧ (checker.Visit n).text = checker.text := by
  cases n with
  | Other k t l cs =>
    simp [insertMustSpecifyColumnChecker.Visit, isInsertWithoutColumns, findingFor]
  | InsertStmt cl t l cs =>
    cases cl with
    | nil =>
      simp [insertMustSpecifyColumnChecker.Visit, isInsertWithoutColumns, findingFor,
        ast.Node.LastLine]
    | cons c cl' =>
      simp [insertMustSpecifyColumnChecker.Visit, isInsertWithoutColumns, findingFor,
        ast.Node.LastLine]

/-- C3: when the context's AST value is not a `[]ast.Node`, `Check` returns a
non-nil error and a nil advice list, whatever the rule configuration and
whatever the helpers of package `advisor` compute. -/
theorem Check_wrong_ast_type_returns_error (env : Env) (rule : SQLReviewRule)
    (typeName : String) :
    Check env { AST := .other typeName, Rule := rule }
      = ([], some "failed to convert to Node")
    ∧ (Check env { AST := .other typeName, Rule := rule }).2 ≠ none
    ∧ (Check env { AST := .other typeName, Rule := rule }).1 = [] := by
  simp [Check]

theorem update_append_length (heap : CheckerHeap) (c : insertMustSpecifyColumnChecker)
    (f : insertMustSpecifyColumnChecker → insertMustSpecifyColumnChecker) :
    CheckerHeap.update (heap ++ [c]) heap.length f = heap ++ [f c] := by
  induction heap with
  | nil => rfl
  | cons x xs ih => simp [CheckerHeap.update, ih]

mutual
theorem WalkAt_append_length (heap : CheckerHeap) :
    ∀ (n : ast.Node) (c : insertMustSpecifyColumnChecker),
      WalkAt (heap ++ [c]) heap.length n = heap ++ [Walk c n]
  | .InsertStmt cl t l cs, c => by
    rw [WalkAt, VisitAt, update_append_length, Walk]
    exact WalkListAt_append_length heap cs _
  | .Other k t l cs, c => by
    rw [WalkAt, VisitAt, update_append_length, Walk]
    exact WalkListAt_append_length heap cs _
theorem WalkListAt_append_length (heap : CheckerHeap) :
    ∀ (ns : List ast.Node) (c : insertMustSpecifyColumnChecker),
      WalkListAt (heap ++ [c]) heap.length ns = heap ++ [WalkList c ns]
  | [], c => by rw [WalkListAt, WalkList]
  | n :: ns, c => by
    rw [WalkListAt, WalkAt_append_length heap n c, WalkList]
    exact WalkListAt_append_length heap ns _
end

theorem walkStmtsAt_append_length (env : Env) (heap : CheckerHeap) (stmts : List ast.Node)
    (c : insertMustSpecifyColumnChecker) :
    walkStmtsAt env (heap ++ [c]) heap.length stmts = heap ++ [walkStmts env c stmts] := by
  induction stmts generalizing c with
  | nil => rfl
  | cons stmt rest ih =>
    rw [walkStmtsAt, update_append_length, WalkAt_append_length, ih, walkStmts]

theorem CheckOnHeap_eq (env : Env) (heap : CheckerHeap) (ctx : Context) :
    ∃ allocated, CheckOnHeap env heap ctx = (Check env ctx, heap ++ allocated) := by
  unfold CheckOnHeap Check
  cases ctx.AST with
  | other t => exact ⟨[], by simp⟩
  | nodeList stmts =>
    cases env.NewStatusBySQLReviewRuleLevel ctx.Rule.Level with
    | error e => exact ⟨[], by simp⟩
    | ok level =>
      simp only [walkStmtsAt_append_length, List.getElem?_concat_length]
      by_cases h : (walkStmts env (freshChecker level ctx) stmts).adviceList.length = 0
      · simp only [h, if_true, update_append_length, List.getElem?_concat_length,
          Option.getD_some]
        exact ⟨_, rfl⟩
      · simp only [h, if_false]
        exact ⟨_, rfl⟩

theorem runChecksOnHeap_eq (env : Env) (ctxs : List Context) (heap : CheckerHeap) :
    (runChecksOnHeap env heap ctxs).1 = ctxs.map (Check env) := by
  induction ctxs generalizing heap with
  | nil => rfl
  | cons c cs ih =>
    obtain ⟨allocated, h⟩ := CheckOnHeap_eq env heap c
    simp [runChecksOnHeap, h, ih]

/-- C4: `Check` is a deterministic function of its context alone. Run on any
memory of checker objects, whatever earlier invocations left there, it returns
the advice list and error it returns on an empty memory; it allocates its own
checker and changes no object that was there before. In a sequence of
invocations threaded through one memory, the invocation on `ctx` returns what
it returns when run alone, whatever ran before and after it, and running the
sequence in reverse order returns the same results in reverse order. -/
theorem Check_fresh_checker_no_leak (env : Env) (heap heap' : CheckerHeap)
    (before after : List Context) (ctx : Context) :
    (CheckOnHeap env heap ctx).1 = (CheckOnHeap env [] ctx).1
    ∧ (CheckOnHeap env heap ctx).1 = (CheckOnHeap env heap' ctx).1
    ∧ (CheckOnHeap env heap ctx).1 = Check env ctx
    ∧ (CheckOnHeap env heap ctx).2.take heap.length = heap
    ∧ (runChecksOnHeap env heap (before ++ ctx :: after)).1[before.length]?
        = some (CheckOnHeap env [] ctx).1
    ∧ (runChecksOnHeap env heap (before ++ ctx :: after).reverse).1
        = (runChecksOnHeap env heap' (before ++ ctx :: after)).1.reverse := by
  obtain ⟨a0, h0⟩ := CheckOnHeap_eq env [] ctx
  obtain ⟨a1, h1⟩ := CheckOnHeap_eq env heap ctx
  obtain ⟨a2, h2⟩ := CheckOnHeap_eq env heap' ctx
  refine ⟨by rw [h0, h1], by rw [h1, h2], by rw [h1], by rw [h1]; simp, ?_, ?_⟩
  · rw [runChecksOnHeap_eq, h0]
    induction before with
    | nil => simp
    | cons c cs ih => simpa using ih
  · rw [runChecksOnHeap_eq, runChecksOnHeap_eq, List.map_reverse]

end pg

/-! ## Lemmas on Go maps -/

namespace gomap

variable {V : Type}

theorem mapGet_eq_none_iff (m : Map V) (k : String) : mapGet m k = none ↔ k ∉ mapKeys m := by
  induction m with
  | nil => simp [mapGet, mapKeys]
  | cons e rest ih =>
    obtain ⟨k', v⟩ := e
    by_cases h : k' = k
    · simp [mapGet, mapKeys, h]
    · have h' : ¬ k = k' := fun hk => h hk.symm
      simpa [mapGet, mapKeys, h, h'] using ih

theorem mapGet_mapSet_same (m : Map V) (k : String) (v : V) : mapGet (mapSet m k v) k = some v := by
  induction m with
  | nil => simp [mapSet, mapGet]
  | cons e rest ih =>
    obtain ⟨k', v'⟩ := e
    by_cases h : k' = k
    · simp [mapSet, mapGet, h]
    · simp [mapSet, mapGet, h, ih]

theorem mapGet_mapSet_ne (m : Map V) (k k' : String) (v : V) (h : k' ≠ k) :
    mapGet (mapSet m k v) k' = mapGet m k' := by
  induction m with
  | nil =>
    have h' : ¬ k = k' := fun hk => h hk.symm
    simp [mapSet, mapGet, h']
  | cons e rest ih =>
    obtain ⟨k0, v0⟩ := e
    by_cases h0 : k0 = k
    · subst h0
      have h' : ¬ k0 = k' := fun hk => h hk.symm
      simp [mapSet, mapGet, h']
    · by_cases h1 : k0 = k'
      · subst h1
        simp [mapSet, mapGet, h0]
      · simp [mapSet, mapGet, h0, h1, ih]

theorem mapKeys_mapSet_of_mem (m : Map V) (k : String) (v : V) (h : k ∈ mapKeys m) :
    mapKeys (mapSet m k v) = mapKeys m := by
  induction m with
  | nil => simp [mapKeys] at h
  | cons e rest ih =>
    obtain ⟨k0, v0⟩ := e
    by_cases h0 : k0 = k
    · simp [mapSet, mapKeys, h0]
    · have hk : k ∈ mapKeys rest := by
        have h' : ¬ k = k0 := fun hk => h0 hk.symm
        simpa [mapKeys, h'] using h
      have := ih hk
      simp only [mapKeys] at this
      simp [mapSet, mapKeys, h0, this]

theorem mem_mapKeys_mapSet (m : Map V) (k x : String) (v : V) :
    x ∈ mapKeys (mapSet m k v) ↔ x = k ∨ x ∈ mapKeys m := by
  rw [← not_iff_not, ← mapGet_eq_none_iff]
  by_cases h : x = k
  · subst h
    simp [mapGet_mapSet_same]
  · rw [mapGet_mapSet_ne m k x v h, mapGet_eq_none_iff]
    simp [h]

end gomap

/-! ## Theorems: the fake Feishu server -/

namespace fake

open feishu gomap

theorem mapGet_approveLoop (m : Map approval) (id : String) :
    mapGet (approveLoop m) id = (mapGet m id).map approved := by
  induction m with
  | nil => simp [approveLoop, mapGet]
  | cons e rest ih =>
    obtain ⟨k, a⟩ := e
    by_cases hs : a.status = .ApprovalStatusPending <;> by_cases hk : k = id <;>
      simp [approveLoop, mapGet, approved, hs, hk, ih]

theorem mapKeys_approveLoop (m : Map approval) : mapKeys (approveLoop m) = mapKeys m := by
  induction m with
  | nil => simp [approveLoop, mapKeys]
  | cons e rest ih =>
    obtain ⟨k, a⟩ := e
    simp only [mapKeys] at ih
    by_cases hs : a.status = .ApprovalStatusPending <;> simp [approveLoop, mapKeys, hs, ih]

theorem pendingCountLoop_eq (m : Map approval) (count : Nat) :
    pendingCountLoop count m
      = count + (m.filter (fun e => decide (e.2.status = .ApprovalStatusPending))).length := by
  induction m generalizing count with
  | nil => simp [pendingCountLoop]
  | cons e rest ih =>
    obtain ⟨k, a⟩ := e
    by_cases hs : a.status = .ApprovalStatusPending
    · simp [pendingCountLoop, hs, ih]
      omega
    · simp [pendingCountLoop, hs, ih]

theorem pendingCountLoop_approveLoop (m : Map approval) (count : Nat) :
    pendingCountLoop count (approveLoop m) = count := by
  induction m generalizing count with
  | nil => simp [pendingCountLoop, approveLoop]
  | cons e rest ih =>
    obtain ⟨k, a⟩ := e
    by_cases hs : a.status = .ApprovalStatusPending
    · simp [pendingCountLoop, approveLoop, hs, ih]
    · simp [pendingCountLoop, approveLoop, hs, ih]

/-- C7: after `ApprovePendingApprovals` every approval that was Pending is
Approved and every other approval keeps its status (with its codes), the table
has the same ids in the same number, `PendingApprovalCount` returns 0, and the
other tables are untouched; `PendingApprovalCount` returns the number of
entries whose status is Pending and leaves the state as it was. -/
theorem ApprovePendingApprovals_and_count (f : Feishu) :
    (∀ id a, mapGet f.approvalInstance id = some a → a.status = .ApprovalStatusPending →
        mapGet f.ApprovePendingApprovals.approvalInstance id
          = some { a with status := .ApprovalStatusApproved })
    ∧ (∀ id a, mapGet f.approvalInstance id = some a → a.status ≠ .ApprovalStatusPending →
        mapGet f.ApprovePendingApprovals.approvalInstance id = some a)
    ∧ (∀ id, mapGet f.approvalInstance id = none →
        mapGet f.ApprovePendingApprovals.approvalInstance id = none)
    ∧ mapKeys f.ApprovePendingApprovals.approvalInstance = mapKeys f.approvalInstance
    ∧ f.ApprovePendingApprovals.approvalInstance.length = f.approvalInstance.length
    ∧ f.ApprovePendingApprovals.PendingApprovalCount.1 = 0
    ∧ f.ApprovePendingApprovals.users = f.users
    ∧ f.ApprovePendingApprovals.approvalDefinition = f.approvalDefinition
    ∧ f.PendingApprovalCount.1
        = (f.approvalInstance.filter
            (fun e => decide (e.2.status = .ApprovalStatusPending))).length
    ∧ f.PendingApprovalCount.2 = f := by
  refine ⟨?_, ?_, ?_, ?_, ?_, ?_, rfl, rfl, ?_, rfl⟩
  · intro id a h hs
    simp [Feishu.ApprovePendingApprovals, mapGet_approveLoop, h, approved, hs]
  · intro id a h hs
    simp [Feishu.ApprovePendingApprovals, mapGet_approveLoop, h, approved, hs]
  · intro id h
    simp [Feishu.ApprovePendingApprovals, mapGet_approveLoop, h]
  · exact mapKeys_approveLoop _
  · have := congrArg List.length (mapKeys_approveLoop f.approvalInstance)
    simpa [mapKeys, Feishu.ApprovePendingApprovals] using this
  · simp [Feishu.PendingApprovalCount, Feishu.ApprovePendingApprovals,
      pendingCountLoop_approveLoop]
  · simp [Feishu.PendingApprovalCount, pendingCountLoop_eq]

theorem RegisterEmailsLoop_error_iff (uuid : Nat → String) (emails : List String)
    (users : Map String) (i : Nat) :
    (RegisterEmailsLoop uuid users i emails).2 ≠ none
      ↔ (∃ e ∈ emails, e ∈ mapKeys users) ∨ ¬ emails.Nodup := by
  induction emails generalizing users i with
  | nil => simp [RegisterEmailsLoop]
  | cons e rest ih =>
    cases hget : mapGet users e with
    | some id =>
      have hmem : e ∈ mapKeys users := by
        by_contra hne
        rw [← mapGet_eq_none_iff, hget] at hne
        exact Option.noConfusion hne
      simp only [RegisterEmailsLoop, hget]
      constructor
      · intro _
        exact Or.inl ⟨e, List.mem_cons_self _ _, hmem⟩
      · intro _
        simp
    | none =>
      have hnot : e ∉ mapKeys users := (mapGet_eq_none_iff users e).1 hget
      simp only [RegisterEmailsLoop, hget, ih, mem_mapKeys_mapSet, List.nodup_cons]
      constructor
      · rintro (⟨x, hx, hxe | hxu⟩ | hnd)
        · subst hxe
          exact Or.inr (fun h => h.1 hx)
        · exact Or.inl ⟨x, List.mem_cons_of_mem _ hx, hxu⟩
        · exact Or.inr (fun h => hnd h.2)
      · rintro (⟨x, hx, hxu⟩ | hnd)
        · rcases List.mem_cons.1 hx with hxe | hxr
          · subst hxe
            exact absurd hxu hnot
          · exact Or.inl ⟨x, hxr, Or.inr hxu⟩
        · by_cases hmem : e ∈ rest
          · exact Or.inl ⟨e, hmem, Or.inl rfl⟩
          · exact Or.inr (fun h => hnd ⟨hmem, h⟩)

theorem RegisterEmailsLoop_success (uuid : Nat → String) (emails : List String)
    (users : Map String) (i : Nat)
    (h : (RegisterEmailsLoop uuid users i emails).2 = none) :
    (∀ e ∈ emails, ∃ id, mapGet (RegisterEmailsLoop uuid users i emails).1 e = some id)
    ∧ (∀ e id, mapGet users e = some id →
        mapGet (RegisterEmailsLoop uuid users i emails).1 e = some id) := by
  induction emails generalizing users i with
  | nil => simp [RegisterEmailsLoop]
  | cons e rest ih =>
    cases hget : mapGet users e with
    | some id => simp [RegisterEmailsLoop, hget] at h
    | none =>
      simp only [RegisterEmailsLoop, hget] at h ⊢
      obtain ⟨h1, h2⟩ := ih (mapSet users e (uuid i)) (i + 1) h
      constructor
      · intro x hx
        rcases List.mem_cons.1 hx with hxe | hxr
        · subst hxe
          exact ⟨uuid i, h2 _ _ (mapGet_mapSet_same users x (uuid i))⟩
        · exact h1 x hxr
      · intro x id hx
        apply h2
        have hne : x ≠ e := by
          intro hxe
          subst hxe
          rw [hget] at hx
          exact Option.noConfusion hx
        rw [mapGet_mapSet_ne users e x (uuid i) hne]
        exact hx

/-- C8: `RegisterEmails` returns an error exactly when some email of the
argument list is already registered before the call or occurs more than once in
the list; when it returns nil, every email of the list is mapped to a user id
afterwards and every email registered before keeps its id. The approval tables
are never touched. -/
theorem RegisterEmails_error_iff_registered_or_repeated (f : Feishu) (uuid : Nat → String)
    (emails : List String) :
    ((f.RegisterEmails uuid emails).2 ≠ none
      ↔ (∃ e ∈ emails, e ∈ mapKeys f.users) ∨ ¬ emails.Nodup)
    ∧ ((f.RegisterEmails uuid emails).2 = none →
        (∀ e ∈ emails, ∃ id, mapGet (f.RegisterEmails uuid emails).1.users e = some id)
        ∧ (∀ e id, mapGet f.users e = some id →
            mapGet (f.RegisterEmails uuid emails).1.users e = some id))
    ∧ (f.RegisterEmails uuid emails).1.approvalInstance = f.approvalInstance
    ∧ (f.RegisterEmails uuid emails).1.approvalDefinition = f.approvalDefinition := by
  refine ⟨?_, ?_, rfl, rfl⟩
  · exact RegisterEmailsLoop_error_iff uuid emails f.users 0
  · intro h
    exact RegisterEmailsLoop_success uuid emails f.users 0 h

theorem lookup_kept_of_fresh (m : Map approval) (id k : String) (a v : approval)
    (hfresh : k ∉ mapKeys m) (h : mapGet m id = some a) :
    mapGet (mapSet m k v) id = some a := by
  have hne : id ≠ k := by
    intro hik
    subst hik
    rw [(mapGet_eq_none_iff m id).2 hfresh] at h
    exact Option.noConfusion h
  rw [mapGet_mapSet_ne m k id v hne]
  exact h

/-- C10: Approved and Canceled are terminal. For every state and every call
whose drawn instance id is fresh, an approval instance whose status is not
Pending is still there with the same status afterwards. `cancelApprovalInstance`
returns an error and leaves the whole state unchanged when the body cannot be
read or decoded, when the instance is unknown and when the instance is not
Pending; on a Pending instance it succeeds, sets that instance to Canceled and
leaves every other instance and the set of ids as they were. -/
theorem non_pending_status_is_terminal (f : Feishu) (op : Op) (hFresh : op.freshIn f)
    (code : String) :
    (∀ id a, mapGet f.approvalInstance id = some a → a.status ≠ .ApprovalStatusPending →
        ∃ a', mapGet (f.step op).approvalInstance id = some a' ∧ a'.status = a.status)
    ∧ (∀ err, f.cancelApprovalInstance (.readError err) =
        (f, .error ("failed to read cancel approval instance body: " ++ err)))
    ∧ (∀ err, f.cancelApprovalInstance (.unmarshalError err) =
        (f, .error ("failed to unmarshal cancel approval instance body: " ++ err)))
    ∧ (mapGet f.approvalInstance code = none →
        f.cancelApprovalInstance (.ok code) = (f, .error ("not found approval " ++ code)))
    ∧ (∀ a, mapGet f.approvalInstance code = some a → a.status ≠ .ApprovalStatusPending →
        (f.cancelApprovalInstance (.ok code)).1 = f
        ∧ ∃ err, (f.cancelApprovalInstance (.ok code)).2 = .error err)
    ∧ (∀ a, mapGet f.approvalInstance code = some a → a.status = .ApprovalStatusPending →
        (f.cancelApprovalInstance (.ok code)).2
          = .ok (.CancelExternalApprovalResponse 0 "success")
        ∧ mapGet (f.cancelApprovalInstance (.ok code)).1.approvalInstance code
          = some { a with status := .ApprovalStatusCanceled }
        ∧ (∀ id, id ≠ code →
            mapGet (f.cancelApprovalInstance (.ok code)).1.approvalInstance id
              = mapGet f.approvalInstance id)
        ∧ mapKeys (f.cancelApprovalInstance (.ok code)).1.approvalInstance
          = mapKeys f.approvalInstance
        ∧ (f.cancelApprovalInstance (.ok code)).1.users = f.users
        ∧ (f.cancelApprovalInstance (.ok code)).1.approvalDefinition
          = f.approvalDefinition) := by
  refine ⟨?_, fun _ => rfl, fun _ => rfl, ?_, ?_, ?_⟩
  · intro id a h hs
    cases op with
    | createApprovalDefinition i => exact ⟨a, h, rfl⟩
    | createApprovalInstance body i =>
      cases body with
      | readError e => exact ⟨a, h, rfl⟩
      | unmarshalError e => exact ⟨a, h, rfl⟩
      | ok ac =>
        simp only [Feishu.step, Feishu.createApprovalInstance]
        split
        · exact ⟨a, h, rfl⟩
        · exact ⟨a, lookup_kept_of_fresh _ _ _ _ _ hFresh h, rfl⟩
    | getApprovalInstanceStatus i =>
      simp only [Feishu.step, Feishu.getApprovalInstanceStatus]
      split <;> exact ⟨a, h, rfl⟩
    | cancelApprovalInstance body =>
      cases body with
      | readError e => exact ⟨a, h, rfl⟩
      | unmarshalError e => exact ⟨a, h, rfl⟩
      | ok c =>
        simp only [Feishu.step, Feishu.cancelApprovalInstance]
        split
        · exact ⟨a, h, rfl⟩
        · rename_i b hb
          split
          · exact ⟨a, h, rfl⟩
          · rename_i hpend
            have hne : id ≠ c := by
              intro hic
              subst hic
              rw [hb] at h
              cases h
              exact hpend hs
            refine ⟨a, ?_, rfl⟩
            simp only
            rw [mapGet_mapSet_ne _ _ _ _ hne]
            exact h
    | ApprovePendingApprovals =>
      refine ⟨a, ?_, rfl⟩
      simp [Feishu.step, Feishu.ApprovePendingApprovals, mapGet_approveLoop, h, approved, hs]
    | RegisterEmails uuid emails => exact ⟨a, h, rfl⟩
    | PendingApprovalCount => exact ⟨a, h, rfl⟩
    | getIDByEmail body =>
      cases body <;> exact ⟨a, h, rfl⟩
  · intro h
    simp [Feishu.cancelApprovalInstance, h]
  · intro a h hs
    simp [Feishu.cancelApprovalInstance, h, hs]
  · intro a h hs
    have hmem : code ∈ mapKeys f.approvalInstance := by
      by_contra hne
      rw [← mapGet_eq_none_iff, h] at hne
      exact Option.noConfusion hne
    have hc : f.cancelApprovalInstance (.ok code)
        = (Feishu.mk f.approvalDefinition (mapSet f.approvalInstance code
              ⟨a.approvalCode, a.instanceCode, .ApprovalStatusCanceled⟩) f.users,
           .ok (.CancelExternalApprovalResponse 0 "success")) := by
      simp [Feishu.cancelApprovalInstance, h, hs]
    rw [hc]
    refine ⟨rfl, ?_, ?_, ?_, rfl, rfl⟩
    · exact mapGet_mapSet_same _ _ _
    · intro id hne
      exact mapGet_mapSet_ne _ _ _ _ hne
    · exact mapKeys_mapSet_of_mem _ _ _ hmem

/-- The freshness hypothesis of C10 holds at `sampleFeishu` for the creation of
an instance with a new id, and the statement holds there. -/
theorem non_pending_status_is_terminal_witness :
    (∀ id a, mapGet sampleFeishu.approvalInstance id = some a →
        a.status ≠ .ApprovalStatusPending →
        ∃ a', mapGet (sampleFeishu.step
            (.createApprovalInstance (.ok "def-1") "inst-5")).approvalInstance id = some a'
          ∧ a'.status = a.status)
    ∧ (sampleFeishu.cancelApprovalInstance (.ok "inst-1")).1 = sampleFeishu
    ∧ mapGet (sampleFeishu.cancelApprovalInstance (.ok "inst-2")).1.approvalInstance "inst-2"
        = some ⟨"def-1", "inst-2", .ApprovalStatusCanceled⟩ :=
  have h := non_pending_status_is_terminal sampleFeishu
    (.createApprovalInstance (.ok "def-1") "inst-5")
    (show "inst-5" ∉ mapKeys sampleFeishu.approvalInstance by decide) "inst-1"
  ⟨h.1, by decide, by decide⟩

end fake

/-! ## Theorems: the database-connect task check -/

namespace server

/-- C9 (the code departs from it): when the task lookup returns no error and no
task, `Run` does not return the "Failed to find task" result; it panics, because
the content of that result is read from the nil error. -/
theorem Run_panics_when_task_missing (env : Collaborators) (TaskID : Int)
    (hFind : env.FindTask TaskID = (none, none)) :
    Run env TaskID
      = .panicked "runtime error: invalid memory address or nil pointer dereference"
    ∧ ¬ ∃ r, Run env TaskID = .returned r ∧ isTaskNotFoundResult TaskID r := by
  have h : Run env TaskID
      = .panicked "runtime error: invalid memory address or nil pointer dereference" := by
    simp [Run, hFind, GoError.Error]
  refine ⟨h, ?_⟩
  rintro ⟨r, hr, _⟩
  rw [h] at hr
  exact Outcome.noConfusion hr

/-- The lookup of task 42 with `taskMissing` returns no task and no error, and
`Run` panics there. -/
theorem Run_panics_when_task_missing_witness :
    Run taskMissing 42
      = .panicked "runtime error: invalid memory address or nil pointer dereference"
    ∧ ¬ ∃ r, Run taskMissing 42 = .returned r ∧ isTaskNotFoundResult 42 r :=
  Run_panics_when_task_missing taskMissing 42 rfl

end server

/-! ## Theorems: the MySQL validator and resource extractor -/

namespace parser

theorem validate_eq_none_iff (allow : String → Bool) (stmts : List Statement) :
    MySQLValidateForEditor allow stmts = none
      ↔ ∀ s ∈ stmts, s.disallowedKind allow = none := by
  induction stmts with
  | nil => simp [MySQLValidateForEditor]
  | cons s rest ih =>
    cases h : s.disallowedKind allow with
    | none => simp [MySQLValidateForEditor, h, ih]
    | some k => simp [MySQLValidateForEditor, h]

theorem disallowedKind_of_read (allow : String → Bool) (s : Statement)
    (h : s.isReadOrExplainRead = true) : s.disallowedKind allow = none := by
  cases s with
  | read b => rfl
  | explain w =>
    cases w <;> simp_all [Statement.isReadOrExplainRead, Statement.disallowedKind]
  | dataDefinition k b => simp [Statement.isReadOrExplainRead] at h
  | dataModification k b => simp [Statement.isReadOrExplainRead] at h
  | unclassified k b => simp [Statement.isReadOrExplainRead] at h

theorem disallowedKind_of_write (allow : String → Bool) (s : Statement)
    (h : s.isWriteOrExplainWrite = true) : s.disallowedKind allow ≠ none := by
  cases s with
  | read b => simp [Statement.isWriteOrExplainWrite] at h
  | explain w =>
    cases w <;> simp_all [Statement.isWriteOrExplainWrite, Statement.disallowedKind]
  | dataDefinition k b => simp [Statement.disallowedKind]
  | dataModification k b => simp [Statement.disallowedKind]
  | unclassified k b => simp [Statement.isWriteOrExplainWrite] at h

/-- C5: on a parsed statement sequence, validation returns nil when every
statement is a read statement or an EXPLAIN of a read statement, and returns an
error when some statement is a data-definition or data-modification statement
or an EXPLAIN of one; an EXPLAIN is classified as the statement it wraps. The
two SELECTs and the EXPLAIN SELECT of the tests are accepted; CREATE TABLE,
UPDATE and EXPLAIN DELETE are rejected. -/
theorem MySQLValidateForEditor_follows_wrapped_kind (allow : String → Bool)
    (stmts : List Statement) :
    ((∀ s ∈ stmts, s.isReadOrExplainRead = true) →
        MySQLValidateForEditor allow stmts = none)
    ∧ ((∃ s ∈ stmts, s.isWriteOrExplainWrite = true) →
        MySQLValidateForEditor allow stmts ≠ none)
    ∧ (∀ w : Statement, (Statement.explain w).disallowedKind allow = w.disallowedKind allow)
    ∧ MySQLValidateForEditor allow treeSelectSelect = none
    ∧ MySQLValidateForEditor allow treeExplainSelect = none
    ∧ MySQLValidateForEditor allow treeCreateTable ≠ none
    ∧ MySQLValidateForEditor allow treeUpdate ≠ none
    ∧ MySQLValidateForEditor allow treeExplainDelete ≠ none := by
  refine ⟨?_, ?_, fun _ => rfl, ?_, ?_, ?_, ?_, ?_⟩
  · intro h
    rw [validate_eq_none_iff]
    intro s hs
    exact disallowedKind_of_read allow s (h s hs)
  · rintro ⟨s, hs, hw⟩ hnone
    rw [validate_eq_none_iff] at hnone
    exact disallowedKind_of_write allow s hw (hnone s hs)
  · simp [treeSelectSelect, MySQLValidateForEditor, Statement.disallowedKind]
  · simp [treeExplainSelect, MySQLValidateForEditor, Statement.disallowedKind]
  · simp [treeCreateTable, MySQLValidateForEditor, Statement.disallowedKind]
  · simp [treeUpdate, MySQLValidateForEditor, Statement.disallowedKind]
  · simp [treeExplainDelete, MySQLValidateForEditor, Statement.disallowedKind]

theorem collect_spec (db : String) (refs : List TableRef) (acc : List SchemaResource)
    (hacc : acc.Nodup) :
    (collect db acc refs).Nodup
    ∧ (∀ r, r ∈ collect db acc refs ↔ r ∈ acc ∨ ∃ ref ∈ refs, r = resolve db ref)
    ∧ ∃ added, collect db acc refs = acc ++ added
        ∧ added.Sublist (refs.map (resolve db)) := by
  induction refs generalizing acc with
  | nil => exact ⟨hacc, by simp [collect], [], by simp [collect]⟩
  | cons ref rest ih =>
    by_cases hmem : resolve db ref ∈ acc
    · obtain ⟨h1, h2, added, h3, h4⟩ := ih acc hacc
      simp only [collect, hmem, if_true]
      refine ⟨h1, ?_, added, h3, ?_⟩
      · intro r
        rw [h2 r]
        constructor
        · rintro (h | ⟨x, hx, rfl⟩)
          · exact Or.inl h
          · exact Or.inr ⟨x, List.mem_cons_of_mem _ hx, rfl⟩
        · rintro (h | ⟨x, hx, rfl⟩)
          · exact Or.inl h
          · rcases List.mem_cons.1 hx with hxe | hxr
            · subst hxe
              exact Or.inl hmem
            · exact Or.inr ⟨x, hxr, rfl⟩
      · exact List.Sublist.cons _ h4
    · have hacc' : (acc ++ [resolve db ref]).Nodup := by
        rw [List.nodup_append]
        refine ⟨hacc, List.nodup_singleton _, ?_⟩
        intro a ha hb
        rw [List.mem_singleton] at hb
        subst hb
        exact hmem ha
      obtain ⟨h1, h2, added, h3, h4⟩ := ih (acc ++ [resolve db ref]) hacc'
      simp only [collect, hmem, if_false]
      refine ⟨h1, ?_, resolve db ref :: added, ?_, ?_⟩
      · intro r
        rw [h2 r]
        constructor
        · rintro (h | ⟨x, hx, rfl⟩)
          · rcases List.mem_append.1 h with ha | hb
            · exact Or.inl ha
            · rw [List.mem_singleton] at hb
              exact Or.inr ⟨ref, List.mem_cons_self _ _, hb⟩
          · exact Or.inr ⟨x, List.mem_cons_of_mem _ hx, rfl⟩
        · rintro (h | ⟨x, hx, rfl⟩)
          · exact Or.inl (List.mem_append_left _ h)
          · rcases List.mem_cons.1 hx with hxe | hxr
            · subst hxe
              exact Or.inl (List.mem_append_right _ (List.mem_singleton.2 rfl))
            · exact Or.inr ⟨x, hxr, rfl⟩
      · rw [h3]
        simp
      · simpa using List.Sublist.cons₂ (resolve db ref) h4

/-- C6: for every default database and every text that parses, the extractor
returns a list without two entries of the same (database, table) pair, with an
entry for every table reference of every statement and no other entry, in
which an unqualified table has the default database and a qualified one its
explicit database, and whose order follows the source text. With default
database "db" the three statements of the tests give the expected lists. -/
theorem extractMySQLResourceList_dedup_complete
    (ParseMySQL : String → Except String (List Statement)) (defaultDatabase text : String)
    (stmts : List Statement) (hParse : ParseMySQL text = .ok stmts) :
    (∃ l, extractMySQLResourceList ParseMySQL defaultDatabase text = .ok l
      ∧ l.Nodup
      ∧ (∀ ref ∈ allTableRefs stmts, resolve defaultDatabase ref ∈ l)
      ∧ (∀ r ∈ l, ∃ ref ∈ allTableRefs stmts, r = resolve defaultDatabase ref)
      ∧ l.Sublist ((allTableRefs stmts).map (resolve defaultDatabase)))
    ∧ (∀ table, resolve defaultDatabase (none, table)
        = { Database := defaultDatabase, Table := table })
    ∧ (∀ database table, resolve defaultDatabase (some database, table)
        = { Database := database, Table := table })
    ∧ extractMySQLResourceList testParse "db"
        "SELECT * FROM t1 WHERE c1 = 1; SELECT * FROM t2;"
        = .ok [{ Database := "db", Table := "t1" }, { Database := "db", Table := "t2" }]
    ∧ extractMySQLResourceList testParse "db"
        "SELECT * FROM db1.t1 JOIN db2.t2 ON t1.c1 = t2.c1;"
        = .ok [{ Database := "db1", Table := "t1" }, { Database := "db2", Table := "t2" }]
    ∧ extractMySQLResourceList testParse "db"
        "SELECT a > (select max(a) from t1) FROM t2;"
        = .ok [{ Database := "db", Table := "t1" }, { Database := "db", Table := "t2" }] := by
  refine ⟨?_, fun _ => rfl, fun _ _ => rfl, rfl, rfl, rfl⟩
  obtain ⟨h1, h2, added, h3, h4⟩ :=
    collect_spec defaultDatabase (allTableRefs stmts) [] List.nodup_nil
  refine ⟨collect defaultDatabase [] (allTableRefs stmts), ?_, h1, ?_, ?_, ?_⟩
  · simp [extractMySQLResourceList, hParse]
  · intro ref href
    exact (h2 _).2 (Or.inr ⟨ref, href, rfl⟩)
  · intro r hr
    rcases (h2 r).1 hr with h | h
    · simp at h
    · exact h
  · rw [h3]
    simpa using h4

/-- The parse hypothesis of C6 holds for the join statement of the tests with
`testParse`, and the statement holds there. -/
theorem extractMySQLResourceList_dedup_complete_witness :
    ∃ l, extractMySQLResourceList testParse "db"
        "SELECT * FROM db1.t1 JOIN db2.t2 ON t1.c1 = t2.c1;" = .ok l
      ∧ l.Nodup
      ∧ (∀ ref ∈ allTableRefs treeJoin, resolve "db" ref ∈ l)
      ∧ (∀ r ∈ l, ∃ ref ∈ allTableRefs treeJoin, r = resolve "db" ref)
      ∧ l.Sublist ((allTableRefs treeJoin).map (resolve "db")) :=
  (extractMySQLResourceList_dedup_complete testParse "db"
    "SELECT * FROM db1.t1 JOIN db2.t2 ON t1.c1 = t2.c1;" treeJoin rfl).1

end parser
